import Mathlib

/-!
Shallow embedding of the reader/printer front end
(`impls/jeffs_python_mal/step1_read_print.py`): the lexer `lex`
(with its sub-scanners for symbols, integers and strings) and the
printer `PRINT` (with its adjacency decision `preceedWithSpace`),
together with proofs settling the specification's claims about them.

Source strings are modelled as `List Char`; the lexer, a Python
generator that yields tokens and may raise, is modelled as a function
returning the list of tokens yielded before termination paired with
the error raised, if any.
-/

namespace JeffsMal

/-- Membership in Python's `string.digits`, the source's `_INT_CHARS`. -/
def isDigitChar (c : Char) : Bool :=
  48 ≤ c.toNat && c.toNat ≤ 57

/-- Membership in Python's `string.printable`, the source's
`_PRINTABLE_ASCII_CHARS`: the 95 characters U+0020..U+007E together with
tab, newline, carriage return, vertical tab and form feed. -/
def pyPrintable (c : Char) : Bool :=
  (32 ≤ c.toNat && c.toNat ≤ 126) ||
    c.toNat = 9 || c.toNat = 10 || c.toNat = 13 || c.toNat = 11 || c.toNat = 12

/-- Membership in the source's `_WHITESPACE_CHARS`, which is Python's
`string.whitespace` (space, tab, newline, carriage return, vertical tab,
form feed) plus the comma. -/
def wsChar (c : Char) : Bool :=
  c.toNat = 32 || c.toNat = 9 || c.toNat = 10 || c.toNat = 13 ||
    c.toNat = 11 || c.toNat = 12 || c.toNat = 44

/-- Membership in the source's `_SYMBOL_CHARS`, which is
`_PRINTABLE_ASCII_CHARS - _WHITESPACE_CHARS`. -/
def symbolChar (c : Char) : Bool :=
  pyPrintable c && !wsChar c

/-- Characters that stop the integer scan in `_scan_int`:
`_WHITESPACE_CHARS | _PARENS`. -/
def intStop (c : Char) : Bool :=
  wsChar c || c.toNat = 40 || c.toNat = 41

/-- The source's `Token` union: `LeftParen | RightParen | Symbol | str | int`. -/
inductive Tok where
  | lp : Tok
  | rp : Tok
  | sym : List Char → Tok
  | int : Int → Tok
  | str : List Char → Tok
deriving DecidableEq

/-- The exceptions the lexer can raise: the explicit
`Non-printable-ASCII character at {index}` and
`unbalanced quotes starting at {index}` raises, and the `ValueError`
raised by `int()` on a malformed slice, which carries the offending
slice text (not an index) in its message. -/
inductive LexError where
  | invalidChar : Nat → LexError
  | unbalancedQuote : Nat → LexError
  | malformedInt : List Char → LexError
deriving DecidableEq

/-- Name accumulated by `_scan_symbol`: the maximal run of characters,
starting at the scan position, that are not in `_WHITESPACE_CHARS`. -/
def scanSymbolName (l : List Char) : List Char :=
  List.takeWhile (fun d => !wsChar d) l

/-- Remainder of the source after `_scan_symbol` returns. -/
def scanSymbolRest (l : List Char) : List Char :=
  List.dropWhile (fun d => !wsChar d) l

/-- Slice passed to `int()` by `_scan_int`: the maximal run of characters,
starting at the scan position, outside `_WHITESPACE_CHARS | _PARENS`. -/
def scanIntSlice (l : List Char) : List Char :=
  List.takeWhile (fun d => !intStop d) l

/-- Remainder of the source after `_scan_int` returns. -/
def scanIntRest (l : List Char) : List Char :=
  List.dropWhile (fun d => !intStop d) l

/-- Numeric value of an ASCII digit character. -/
def digitVal (c : Char) : Nat :=
  c.toNat - 48

/-- Tail of CPython's `int(s, 10)` parse after at least one ASCII digit
has been read: further ASCII digits, with single underscores allowed
between digits.  Exact for ASCII input; see `pyIntLit` for the faithful
domain of the model and its conservative behaviour outside it. -/
def pyIntTail (acc : Nat) : List Char → Option Nat
  | [] => some acc
  | '_' :: rest =>
    match rest with
    | [] => none
    | d :: rest2 =>
      if isDigitChar d then pyIntTail (10 * acc + digitVal d) rest2 else none
  | d :: rest =>
    if isDigitChar d then pyIntTail (10 * acc + digitVal d) rest else none

/-- CPython's `int(s)` as invoked by `_scan_int`.  Faithful domain: the
slices whose characters are all printable ASCII.  Such a slice starts at
an ASCII digit and contains no ASCII whitespace, comma or parenthesis
(those are scan stoppers), so on it `int()` accepts exactly a nonempty
run of ASCII digits with single underscores permitted between digits,
which is what this function accepts; it returns `none` exactly where
`int()` raises `ValueError` there.  Outside that domain the model is
conservative: CPython first maps non-ASCII Unicode decimal digits to
ASCII digits and Unicode whitespace to spaces before parsing, so
`int()` also accepts slices such as a digit followed by ARABIC-INDIC
DIGIT TWO (U+0662) or by a trailing NO-BREAK SPACE (U+00A0), which this
function reports as errors.  Claims about the malformed-number error
are therefore stated for printable-ASCII slices only. -/
def pyIntLit : List Char → Option Nat
  | [] => none
  | d :: rest => if isDigitChar d then pyIntTail (digitVal d) rest else none

/-- Scan of `_scan_str` after the opening quote: split the remaining
source at the first `"`, returning the accumulated value and the
remainder after the closing quote, or `none` when no `"` occurs. -/
def splitAtQuote : List Char → Option (List Char × List Char)
  | [] => none
  | c :: rest =>
    if c = '"' then some ([], rest)
    else
      match splitAtQuote rest with
      | some (v, r) => some (c :: v, r)
      | none => none

/-- Prepend a freshly yielded token to the outcome of lexing the rest of
the source. -/
def consTok (t : Tok) (r : List Tok × Option LexError) :
    List Tok × Option LexError :=
  (t :: r.1, r.2)

/-- One-step-per-iteration model of the `while` loop of `lex`, with fuel.
`i` is `current_char_index`, kept for the indices carried by errors; the
list argument is the unscanned remainder of the source.  Every iteration
consumes at least one character, so fuel equal to the length of the
remainder always suffices; the fuel-exhaustion value is never reached
from `lexFrom` below.  The branch order mirrors the source: the
printable-ASCII check, then `(`, `)`, `"`, `_INT_CHARS`, `_SYMBOL_CHARS`,
and finally the whitespace/comma skip. -/
def lexFuel : Nat → Nat → List Char → List Tok × Option LexError
  | _, _, [] => ([], none)
  | 0, _, _ :: _ => ([], none)
  | fuel+1, i, c :: rest =>
    if pyPrintable c = false then ([], some (LexError.invalidChar i))
    else if c = '(' then consTok Tok.lp (lexFuel fuel (i+1) rest)
    else if c = ')' then consTok Tok.rp (lexFuel fuel (i+1) rest)
    else if c = '"' then
      match splitAtQuote rest with
      | some (val, rest2) =>
        consTok (Tok.str val) (lexFuel fuel (i + val.length + 2) rest2)
      | none => ([], some (LexError.unbalancedQuote i))
    else if isDigitChar c = true then
      match pyIntLit (scanIntSlice (c :: rest)) with
      | some n =>
        consTok (Tok.int (Int.ofNat n))
          (lexFuel fuel (i + (scanIntSlice (c :: rest)).length)
            (scanIntRest (c :: rest)))
      | none => ([], some (LexError.malformedInt (scanIntSlice (c :: rest))))
    else if symbolChar c = true then
      consTok (Tok.sym (scanSymbolName (c :: rest)))
        (lexFuel fuel (i + (scanSymbolName (c :: rest)).length)
          (scanSymbolRest (c :: rest)))
    else lexFuel fuel (i+1) rest

/-- The lexer loop started at scan index `i` on remainder `l`, with the
always-sufficient fuel. -/
def lexFrom (i : Nat) (l : List Char) : List Tok × Option LexError :=
  lexFuel l.length i l

/-- The source's `lex(source)`: the tokens yielded, in order, paired with
the exception raised, if any. -/
def lex (source : List Char) : List Tok × Option LexError :=
  lexFrom 0 source

/-- Decimal digits of a natural number, with fuel (one digit is produced
per unit of fuel, so `n + 1` always suffices). -/
def natToCharsAux : Nat → Nat → List Char → List Char
  | 0, _, acc => acc
  | fuel+1, n, acc =>
    if n < 10 then Char.ofNat (48 + n) :: acc
    else natToCharsAux fuel (n / 10) (Char.ofNat (48 + n % 10) :: acc)

/-- Decimal representation of a natural number, as Python's `str`. -/
def natToChars (n : Nat) : List Char :=
  natToCharsAux (n + 1) n []

/-- Python's `str` of an `int`. -/
def intToChars (n : Int) : List Char :=
  if n < 0 then '-' :: natToChars n.natAbs else natToChars n.toNat

/-- Textual form of one token as built by `PRINT`:
`f'"{current}"' if isinstance(current, str) else str(current)`. -/
def tokText : Tok → List Char
  | Tok.lp => ['(']
  | Tok.rp => [')']
  | Tok.sym name => name
  | Tok.int n => intToChars n
  | Tok.str v => '"' :: (v ++ ['"'])

/-- Python truthiness of a token, as tested by `if not previous:` in
`_preceed_with_space`: the integer `0` and the empty string are falsy;
the `LeftParen`, `RightParen` and `Symbol` dataclass instances are
always truthy. -/
def pyTruthy : Tok → Bool
  | Tok.int n => if n = 0 then false else true
  | Tok.str v => if v = [] then false else true
  | _ => true

/-- The three-valued kind used by the `rules` dictionary of
`_preceed_with_space`, where `None` stands for any non-paren token. -/
inductive Kind where
  | lparen : Kind
  | rparen : Kind
  | other : Kind
deriving DecidableEq

/-- Kind classification of a token for the spacing decision. -/
def kindOf : Tok → Kind
  | Tok.lp => Kind.lparen
  | Tok.rp => Kind.rparen
  | _ => Kind.other

/-- The `rules` dictionary of `_preceed_with_space`, keyed on the kinds
of the previous and current tokens. -/
def spaceRule : Kind → Kind → Bool
  | Kind.other, Kind.lparen => true
  | Kind.other, Kind.rparen => false
  | Kind.other, Kind.other => true
  | Kind.lparen, _ => false
  | Kind.rparen, Kind.lparen => true
  | Kind.rparen, Kind.rparen => false
  | Kind.rparen, Kind.other => true

/-- The source's `_preceed_with_space(previous, current)`.  Note the
guard is Python's `if not previous: return False`, a truthiness test:
it returns `False` not only when `previous` is `None` but also when it
is the falsy token `0` or `""`. -/
def preceedWithSpace : Option Tok → Tok → Bool
  | none, _ => false
  | some p, cur =>
    if pyTruthy p = false then false
    else spaceRule (kindOf p) (kindOf cur)

/-- The accumulation loop of `PRINT`, carrying the previous token. -/
def printAux : Option Tok → List Tok → List Char
  | _, [] => []
  | prev, t :: ts =>
    (if preceedWithSpace prev t then [' '] else []) ++
      tokText t ++ printAux (some t) ts

/-- The source's `PRINT(tokens)`. -/
def PRINT (tokens : List Tok) : List Char :=
  printAux none tokens

/-- Modelled from the spec: the printer of §4.2, whose space decision is
exactly the adjacency table on the kind pair — the spec's table has no
analogue of the implementation's truthiness early return.  Used to
compare the specified printer with the implemented one. -/
def renderSpecAux : Option Tok → List Tok → List Char
  | _, [] => []
  | prev, t :: ts =>
    (if (match prev with
         | none => false
         | some p => spaceRule (kindOf p) (kindOf t)) then [' '] else []) ++
      tokText t ++ renderSpecAux (some t) ts

/-- Modelled from the spec: §4.2's `render` over a token sequence. -/
def renderSpec (tokens : List Tok) : List Char :=
  renderSpecAux none tokens

/-! Character-class facts used to drive the lexer's branch dispatch. -/

theorem digit_printable {c : Char} (h : isDigitChar c = true) :
    pyPrintable c = true := by
  simp only [isDigitChar, Bool.and_eq_true, decide_eq_true_eq] at h
  simp only [pyPrintable, Bool.or_eq_true, Bool.and_eq_true, decide_eq_true_eq]
  omega

theorem digit_not_ws {c : Char} (h : isDigitChar c = true) :
    wsChar c = false := by
  rw [Bool.eq_false_iff]
  intro hw
  simp only [isDigitChar, Bool.and_eq_true, decide_eq_true_eq] at h
  simp only [wsChar, Bool.or_eq_true, decide_eq_true_eq] at hw
  omega

theorem digit_not_stop {c : Char} (h : isDigitChar c = true) :
    intStop c = false := by
  rw [Bool.eq_false_iff]
  intro hw
  simp only [isDigitChar, Bool.and_eq_true, decide_eq_true_eq] at h
  simp only [intStop, wsChar, Bool.or_eq_true, decide_eq_true_eq] at hw
  omega

theorem digit_ne_lp {c : Char} (h : isDigitChar c = true) : c ≠ '(' := by
  intro he; subst he; exact absurd h (by decide)

theorem digit_ne_rp {c : Char} (h : isDigitChar c = true) : c ≠ ')' := by
  intro he; subst he; exact absurd h (by decide)

theorem digit_ne_quote {c : Char} (h : isDigitChar c = true) : c ≠ '"' := by
  intro he; subst he; exact absurd h (by decide)

theorem ws_printable {c : Char} (h : wsChar c = true) :
    pyPrintable c = true := by
  simp only [wsChar, Bool.or_eq_true, decide_eq_true_eq] at h
  simp only [pyPrintable, Bool.or_eq_true, Bool.and_eq_true, decide_eq_true_eq]
  omega

theorem ws_not_digit {c : Char} (h : wsChar c = true) :
    isDigitChar c = false := by
  rw [Bool.eq_false_iff]
  intro hd
  simp only [wsChar, Bool.or_eq_true, decide_eq_true_eq] at h
  simp only [isDigitChar, Bool.and_eq_true, decide_eq_true_eq] at hd
  omega

theorem ws_ne_lp {c : Char} (h : wsChar c = true) : c ≠ '(' := by
  intro he; subst he; exact absurd h (by decide)

theorem ws_ne_rp {c : Char} (h : wsChar c = true) : c ≠ ')' := by
  intro he; subst he; exact absurd h (by decide)

theorem ws_ne_quote {c : Char} (h : wsChar c = true) : c ≠ '"' := by
  intro he; subst he; exact absurd h (by decide)

theorem ws_not_symbol {c : Char} (h : wsChar c = true) :
    symbolChar c = false := by
  simp [symbolChar, h]

/-! Facts about the string sub-scanner. -/

theorem splitAtQuote_of_not_mem {l : List Char} (h : '"' ∉ l) :
    splitAtQuote l = none := by
  induction l with
  | nil => rfl
  | cons c rest ih =>
    simp only [List.mem_cons, not_or] at h
    have hc : ¬ c = '"' := fun he => h.1 he.symm
    simp [splitAtQuote, hc, ih h.2]

theorem splitAtQuote_some_eq {l v r : List Char}
    (h : splitAtQuote l = some (v, r)) : l = v ++ '"' :: r ∧ '"' ∉ v := by
  induction l generalizing v r with
  | nil => simp [splitAtQuote] at h
  | cons c rest ih =>
    simp only [splitAtQuote] at h
    split at h
    · next hc =>
      subst hc
      simp only [Option.some.injEq, Prod.mk.injEq] at h
      rw [← h.1, ← h.2]
      simp
    · next hc =>
      split at h
      · next v2 r2 hs =>
        simp only [Option.some.injEq, Prod.mk.injEq] at h
        obtain ⟨hv, hr⟩ := h
        subst hr
        obtain ⟨he, hm⟩ := ih hs
        rw [← hv]
        constructor
        · rw [he]; simp
        · simp only [List.mem_cons, not_or]
          exact ⟨fun he2 => hc he2.symm, hm⟩
      · simp at h

theorem splitAtQuote_append {v r : List Char} (h : '"' ∉ v) :
    splitAtQuote (v ++ '"' :: r) = some (v, r) := by
  induction v with
  | nil => simp [splitAtQuote]
  | cons c rest ih =>
    simp only [List.mem_cons, not_or] at h
    have hc : ¬ c = '"' := fun he => h.1 he.symm
    simp [splitAtQuote, hc, ih h.2]

/-! Facts about maximal-run scans. -/

theorem dropWhile_head_false {p : Char → Bool} :
    ∀ {l c r}, List.dropWhile p l = c :: r → p c = false := by
  intro l
  induction l with
  | nil => intro c r h; simp [List.dropWhile] at h
  | cons a t ih =>
    intro c r h
    by_cases ha : p a = true
    · rw [List.dropWhile_cons_of_pos ha] at h
      exact ih h
    · rw [List.dropWhile_cons_of_neg ha] at h
      cases h
      exact Bool.eq_false_iff.mpr ha

theorem scan_append {p : Char → Bool} :
    ∀ {t u : List Char}, (∀ c ∈ t, p c = true) →
      (∀ c r, u = c :: r → p c = false) →
      (t ++ u).takeWhile p = t ∧ (t ++ u).dropWhile p = u := by
  intro t
  induction t with
  | nil =>
    intro u _ hu
    match u with
    | [] => simp
    | c :: r =>
      have := hu c r rfl
      simp only [List.nil_append]
      rw [List.takeWhile_cons_of_neg (by simp [this]),
        List.dropWhile_cons_of_neg (by simp [this])]
      exact ⟨rfl, rfl⟩
  | cons a t2 ih =>
    intro u ht hu
    have ha : p a = true := ht a (by simp)
    have ih2 := ih (fun c hc => ht c (by simp [hc])) hu
    simp only [List.cons_append]
    rw [List.takeWhile_cons_of_pos ha, List.dropWhile_cons_of_pos ha]
    exact ⟨by rw [ih2.1], ih2.2⟩

/-! Unfolding lemmas, one per branch of the lexer loop. -/

theorem lexFuel_nil (fuel i : Nat) : lexFuel fuel i [] = ([], none) := by
  cases fuel <;> rfl

theorem lexFuel_bad {c : Char} (fuel i : Nat) (rest : List Char)
    (h : pyPrintable c = false) :
    lexFuel (fuel+1) i (c :: rest) = ([], some (LexError.invalidChar i)) := by
  simp [lexFuel, h]

theorem lexFuel_lp (fuel i : Nat) (rest : List Char) :
    lexFuel (fuel+1) i ('(' :: rest) =
      consTok Tok.lp (lexFuel fuel (i+1) rest) := by
  simp [lexFuel, (by decide : pyPrintable '(' = true)]

theorem lexFuel_rp (fuel i : Nat) (rest : List Char) :
    lexFuel (fuel+1) i (')' :: rest) =
      consTok Tok.rp (lexFuel fuel (i+1) rest) := by
  simp [lexFuel, (by decide : pyPrintable ')' = true),
    (by decide : ¬ (')' : Char) = '(')]

theorem lexFuel_quote_some (fuel i : Nat) {rest val rest2 : List Char}
    (h : splitAtQuote rest = some (val, rest2)) :
    lexFuel (fuel+1) i ('"' :: rest) =
      consTok (Tok.str val) (lexFuel fuel (i + val.length + 2) rest2) := by
  simp [lexFuel, (by decide : pyPrintable '"' = true),
    (by decide : ¬ ('"' : Char) = '('), (by decide : ¬ ('"' : Char) = ')'), h]

theorem lexFuel_quote_none (fuel i : Nat) {rest : List Char}
    (h : splitAtQuote rest = none) :
    lexFuel (fuel+1) i ('"' :: rest) =
      ([], some (LexError.unbalancedQuote i)) := by
  simp [lexFuel, (by decide : pyPrintable '"' = true),
    (by decide : ¬ ('"' : Char) = '('), (by decide : ¬ ('"' : Char) = ')'), h]

theorem lexFuel_digit_some (fuel i : Nat) {c : Char} {rest : List Char} {n : Nat}
    (hd : isDigitChar c = true)
    (h : pyIntLit (scanIntSlice (c :: rest)) = some n) :
    lexFuel (fuel+1) i (c :: rest) =
      consTok (Tok.int (Int.ofNat n))
        (lexFuel fuel (i + (scanIntSlice (c :: rest)).length)
          (scanIntRest (c :: rest))) := by
  simp [lexFuel, digit_printable hd, digit_ne_lp hd, digit_ne_rp hd,
    digit_ne_quote hd, hd, h]

theorem lexFuel_digit_none (fuel i : Nat) {c : Char} {rest : List Char}
    (hd : isDigitChar c = true)
    (h : pyIntLit (scanIntSlice (c :: rest)) = none) :
    lexFuel (fuel+1) i (c :: rest) =
      ([], some (LexError.malformedInt (scanIntSlice (c :: rest)))) := by
  simp [lexFuel, digit_printable hd, digit_ne_lp hd, digit_ne_rp hd,
    digit_ne_quote hd, hd, h]

theorem lexFuel_sym (fuel i : Nat) {c : Char} (rest : List Char)
    (hp : pyPrintable c = true) (hws : wsChar c = false)
    (hd : isDigitChar c = false) (h1 : c ≠ '(') (h2 : c ≠ ')') (h3 : c ≠ '"') :
    lexFuel (fuel+1) i (c :: rest) =
      consTok (Tok.sym (scanSymbolName (c :: rest)))
        (lexFuel fuel (i + (scanSymbolName (c :: rest)).length)
          (scanSymbolRest (c :: rest))) := by
  simp [lexFuel, hp, hws, hd, h1, h2, h3, symbolChar]

theorem lexFuel_ws (fuel i : Nat) {c : Char} (rest : List Char)
    (hw : wsChar c = true) :
    lexFuel (fuel+1) i (c :: rest) = lexFuel fuel (i+1) rest := by
  simp [lexFuel, ws_printable hw, ws_ne_lp hw, ws_ne_rp hw, ws_ne_quote hw,
    ws_not_digit hw, ws_not_symbol hw]

/-- Any fuel at least the length of the remaining source gives the same
outcome as the canonical fuel used by `lexFrom`: every loop iteration
consumes at least one character. -/
theorem lexFuel_norm :
    ∀ fuel i l, l.length ≤ fuel → lexFuel fuel i l = lexFrom i l := by
  intro fuel
  induction fuel using Nat.strong_induction_on with
  | _ fuel ih =>
    intro i l hlen
    match fuel, l with
    | fuel, [] =>
      rw [lexFuel_nil, lexFrom, List.length_nil, lexFuel_nil]
    | 0, c :: rest =>
      simp at hlen
    | fuel+1, c :: rest =>
      rw [lexFrom, List.length_cons]
      have hrest : rest.length ≤ fuel := by
        simpa using Nat.lt_succ_iff.mp (Nat.lt_of_lt_of_le (Nat.lt_succ_self _) hlen)
      have hfuel : fuel < fuel + 1 := Nat.lt_succ_self _
      have hlenlt : rest.length < fuel + 1 := Nat.lt_succ_of_le hrest
      by_cases hp : pyPrintable c = false
      · rw [lexFuel_bad _ _ _ hp, lexFuel_bad _ _ _ hp]
      · by_cases hlp : c = '('
        · subst hlp
          rw [lexFuel_lp, lexFuel_lp,
            ih fuel hfuel (i+1) rest hrest,
            ih rest.length hlenlt (i+1) rest (Nat.le_refl _)]
        · by_cases hrp : c = ')'
          · subst hrp
            rw [lexFuel_rp, lexFuel_rp,
              ih fuel hfuel (i+1) rest hrest,
              ih rest.length hlenlt (i+1) rest (Nat.le_refl _)]
          · by_cases hq : c = '"'
            · subst hq
              match hs : splitAtQuote rest with
              | none =>
                rw [lexFuel_quote_none _ _ hs, lexFuel_quote_none _ _ hs]
              | some (val, rest2) =>
                have he := (splitAtQuote_some_eq hs).1
                have h2 : rest2.length ≤ rest.length := by
                  rw [he]; simp; omega
                rw [lexFuel_quote_some _ _ hs, lexFuel_quote_some _ _ hs,
                  ih fuel hfuel _ rest2 (Nat.le_trans h2 hrest),
                  ih rest.length hlenlt _ rest2 h2]
            · by_cases hd : isDigitChar c = true
              · match hn : pyIntLit (scanIntSlice (c :: rest)) with
                | none =>
                  rw [lexFuel_digit_none _ _ hd hn, lexFuel_digit_none _ _ hd hn]
                | some n =>
                  have hrl : (scanIntRest (c :: rest)).length ≤ rest.length := by
                    rw [scanIntRest, List.dropWhile_cons_of_pos
                      (by simp [digit_not_stop hd])]
                    exact (List.dropWhile_sublist _).length_le
                  rw [lexFuel_digit_some _ _ hd hn, lexFuel_digit_some _ _ hd hn,
                    ih fuel hfuel _ _ (Nat.le_trans hrl hrest),
                    ih rest.length hlenlt _ _ hrl]
              · by_cases hw : wsChar c = true
                · rw [lexFuel_ws _ _ _ hw, lexFuel_ws _ _ _ hw,
                    ih fuel hfuel (i+1) rest hrest,
                    ih rest.length hlenlt (i+1) rest (Nat.le_refl _)]
                · have hp2 : pyPrintable c = true := by
                    cases hb : pyPrintable c
                    · exact absurd hb hp
                    · rfl
                  have hw2 : wsChar c = false := by
                    cases hb : wsChar c
                    · rfl
                    · exact absurd hb hw
                  have hd2 : isDigitChar c = false := by
                    cases hb : isDigitChar c
                    · rfl
                    · exact absurd hb hd
                  have hrl : (scanSymbolRest (c :: rest)).length ≤ rest.length := by
                    rw [scanSymbolRest, List.dropWhile_cons_of_pos (by simp [hw2])]
                    exact (List.dropWhile_sublist _).length_le
                  rw [lexFuel_sym _ _ _ hp2 hw2 hd2 hlp hrp hq,
                    lexFuel_sym _ _ _ hp2 hw2 hd2 hlp hrp hq,
                    ih fuel hfuel _ _ (Nat.le_trans hrl hrest),
                    ih rest.length hlenlt _ _ hrl]

/-! One-iteration unfolding of `lexFrom`, one lemma per loop branch. -/

theorem lexFrom_nil (i : Nat) : lexFrom i [] = ([], none) := rfl

theorem lexFrom_bad {c : Char} (i : Nat) (rest : List Char)
    (h : pyPrintable c = false) :
    lexFrom i (c :: rest) = ([], some (LexError.invalidChar i)) := by
  rw [lexFrom, List.length_cons, lexFuel_bad _ _ _ h]

theorem lexFrom_lp (i : Nat) (rest : List Char) :
    lexFrom i ('(' :: rest) = consTok Tok.lp (lexFrom (i+1) rest) := by
  rw [lexFrom, List.length_cons, lexFuel_lp]; rfl

theorem lexFrom_rp (i : Nat) (rest : List Char) :
    lexFrom i (')' :: rest) = consTok Tok.rp (lexFrom (i+1) rest) := by
  rw [lexFrom, List.length_cons, lexFuel_rp]; rfl

theorem lexFrom_quote_some (i : Nat) {rest val rest2 : List Char}
    (h : splitAtQuote rest = some (val, rest2)) :
    lexFrom i ('"' :: rest) =
      consTok (Tok.str val) (lexFrom (i + val.length + 2) rest2) := by
  have he := (splitAtQuote_some_eq h).1
  have h2 : rest2.length ≤ rest.length := by rw [he]; simp; omega
  rw [lexFrom, List.length_cons, lexFuel_quote_some _ _ h, lexFuel_norm _ _ _ h2]

theorem lexFrom_quote_none (i : Nat) {rest : List Char}
    (h : splitAtQuote rest = none) :
    lexFrom i ('"' :: rest) = ([], some (LexError.unbalancedQuote i)) := by
  rw [lexFrom, List.length_cons, lexFuel_quote_none _ _ h]

theorem lexFrom_digit_some (i : Nat) {c : Char} {rest : List Char} {n : Nat}
    (hd : isDigitChar c = true)
    (h : pyIntLit (scanIntSlice (c :: rest)) = some n) :
    lexFrom i (c :: rest) =
      consTok (Tok.int (Int.ofNat n))
        (lexFrom (i + (scanIntSlice (c :: rest)).length)
          (scanIntRest (c :: rest))) := by
  have hrl : (scanIntRest (c :: rest)).length ≤ rest.length := by
    rw [scanIntRest, List.dropWhile_cons_of_pos (by simp [digit_not_stop hd])]
    exact (List.dropWhile_sublist _).length_le
  rw [lexFrom, List.length_cons, lexFuel_digit_some _ _ hd h, lexFuel_norm _ _ _ hrl]

theorem lexFrom_digit_none (i : Nat) {c : Char} {rest : List Char}
    (hd : isDigitChar c = true)
    (h : pyIntLit (scanIntSlice (c :: rest)) = none) :
    lexFrom i (c :: rest) =
      ([], some (LexError.malformedInt (scanIntSlice (c :: rest)))) := by
  rw [lexFrom, List.length_cons, lexFuel_digit_none _ _ hd h]

theorem lexFrom_sym (i : Nat) {c : Char} (rest : List Char)
    (hp : pyPrintable c = true) (hws : wsChar c = false)
    (hd : isDigitChar c = false) (h1 : c ≠ '(') (h2 : c ≠ ')') (h3 : c ≠ '"') :
    lexFrom i (c :: rest) =
      consTok (Tok.sym (scanSymbolName (c :: rest)))
        (lexFrom (i + (scanSymbolName (c :: rest)).length)
          (scanSymbolRest (c :: rest))) := by
  have hrl : (scanSymbolRest (c :: rest)).length ≤ rest.length := by
    rw [scanSymbolRest, List.dropWhile_cons_of_pos (by simp [hws])]
    exact (List.dropWhile_sublist _).length_le
  rw [lexFrom, List.length_cons, lexFuel_sym _ _ _ hp hws hd h1 h2 h3,
    lexFuel_norm _ _ _ hrl]

theorem lexFrom_ws (i : Nat) {c : Char} (rest : List Char)
    (hw : wsChar c = true) :
    lexFrom i (c :: rest) = lexFrom (i+1) rest := by
  rw [lexFrom, List.length_cons, lexFuel_ws _ _ _ hw]; rfl

/-- Every `Symbol` token ever yielded by the lexer loop has a non-empty
name none of whose characters lie in `_WHITESPACE_CHARS` (whitespace or
comma): `_scan_symbol` seeds the name with the dispatching character and
stops at the first `_WHITESPACE_CHARS` member. -/
theorem sym_name_invariant :
    ∀ fuel i l name, Tok.sym name ∈ (lexFuel fuel i l).1 →
      name ≠ [] ∧ ∀ c ∈ name, wsChar c = false := by
  intro fuel
  induction fuel with
  | zero =>
    intro i l name h
    cases l with
    | nil => rw [lexFuel_nil] at h; simp at h
    | cons c rest => simp [lexFuel] at h
  | succ fuel ih =>
    intro i l name h
    cases l with
    | nil => rw [lexFuel_nil] at h; simp at h
    | cons c rest =>
      by_cases hp : pyPrintable c = false
      · rw [lexFuel_bad _ _ _ hp] at h; simp at h
      · by_cases hlp : c = '('
        · subst hlp
          rw [lexFuel_lp] at h
          rcases List.mem_cons.mp h with he | hm
          · simp at he
          · exact ih _ _ _ hm
        · by_cases hrp : c = ')'
          · subst hrp
            rw [lexFuel_rp] at h
            rcases List.mem_cons.mp h with he | hm
            · simp at he
            · exact ih _ _ _ hm
          · by_cases hq : c = '"'
            · subst hq
              match hs : splitAtQuote rest with
              | none =>
                rw [lexFuel_quote_none _ _ hs] at h; simp at h
              | some (val, rest2) =>
                rw [lexFuel_quote_some _ _ hs] at h
                rcases List.mem_cons.mp h with he | hm
                · simp at he
                · exact ih _ _ _ hm
            · by_cases hd : isDigitChar c = true
              · match hn : pyIntLit (scanIntSlice (c :: rest)) with
                | none =>
                  rw [lexFuel_digit_none _ _ hd hn] at h; simp at h
                | some n =>
                  rw [lexFuel_digit_some _ _ hd hn] at h
                  rcases List.mem_cons.mp h with he | hm
                  · simp at he
                  · exact ih _ _ _ hm
              · by_cases hw : wsChar c = true
                · rw [lexFuel_ws _ _ _ hw] at h
                  exact ih _ _ _ h
                · have hp2 : pyPrintable c = true := by
                    cases hb : pyPrintable c
                    · exact absurd hb hp
                    · rfl
                  have hw2 : wsChar c = false := by
                    cases hb : wsChar c
                    · rfl
                    · exact absurd hb hw
                  have hd2 : isDigitChar c = false := by
                    cases hb : isDigitChar c
                    · rfl
                    · exact absurd hb hd
                  rw [lexFuel_sym _ _ _ hp2 hw2 hd2 hlp hrp hq] at h
                  rcases List.mem_cons.mp h with he | hm
                  · have hname : name = scanSymbolName (c :: rest) := by
                      cases he; rfl
                    subst hname
                    rw [scanSymbolName, List.takeWhile_cons_of_pos (by simp [hw2])]
                    refine ⟨by simp, ?_⟩
                    intro x hx
                    rcases List.mem_cons.mp hx with hxc | hxm
                    · subst hxc; exact hw2
                    · have := List.mem_takeWhile_imp hxm
                      simpa using this
                  · exact ih _ _ _ hm

/-- When the lexer loop terminates with an error, the source splits into
a clean head, whose complete scan yields exactly the tokens produced
before the error, and a tail at whose first character the error is
detected immediately, with no token yielded in its place. -/
theorem error_split :
    ∀ fuel i l ts e, l.length ≤ fuel → lexFuel fuel i l = (ts, some e) →
      ∃ pre post, l = pre ++ post ∧ lexFrom i pre = (ts, none) ∧
        lexFrom (i + pre.length) post = ([], some e) := by
  intro fuel
  induction fuel with
  | zero =>
    intro i l ts e hlen h
    cases l with
    | nil => rw [lexFuel_nil] at h; simp at h
    | cons c rest => simp at hlen
  | succ fuel ih =>
    intro i l ts e hlen h
    cases l with
    | nil => rw [lexFuel_nil] at h; simp at h
    | cons c rest =>
      have hrest : rest.length ≤ fuel := by simpa using hlen
      by_cases hp : pyPrintable c = false
      · rw [lexFuel_bad _ _ _ hp] at h
        injection h with h1 h2
        injection h2 with h2
        refine ⟨[], c :: rest, by simp, ?_, ?_⟩
        · rw [lexFrom_nil, ← h1]
        · rw [List.length_nil, Nat.add_zero, lexFrom_bad _ _ hp, h2]
      · by_cases hlp : c = '('
        · subst hlp
          rw [lexFuel_lp] at h
          have h1 : Tok.lp :: (lexFuel fuel (i+1) rest).1 = ts := congrArg Prod.fst h
          have h2 : (lexFuel fuel (i+1) rest).2 = some e := congrArg Prod.snd h
          have hsub : lexFuel fuel (i+1) rest =
              ((lexFuel fuel (i+1) rest).1, some e) := by rw [← h2]
          obtain ⟨pre2, post, hsplit, hpre, hpost⟩ := ih (i+1) rest _ e hrest hsub
          refine ⟨'(' :: pre2, post, by simp [hsplit], ?_, ?_⟩
          · rw [lexFrom_lp, hpre, ← h1]; rfl
          · have hidx : i + ('(' :: pre2).length = i + 1 + pre2.length := by
              simp [List.length_cons]; omega
            rw [hidx]; exact hpost
        · by_cases hrp : c = ')'
          · subst hrp
            rw [lexFuel_rp] at h
            have h1 : Tok.rp :: (lexFuel fuel (i+1) rest).1 = ts := congrArg Prod.fst h
            have h2 : (lexFuel fuel (i+1) rest).2 = some e := congrArg Prod.snd h
            have hsub : lexFuel fuel (i+1) rest =
                ((lexFuel fuel (i+1) rest).1, some e) := by rw [← h2]
            obtain ⟨pre2, post, hsplit, hpre, hpost⟩ := ih (i+1) rest _ e hrest hsub
            refine ⟨')' :: pre2, post, by simp [hsplit], ?_, ?_⟩
            · rw [lexFrom_rp, hpre, ← h1]; rfl
            · have hidx : i + (')' :: pre2).length = i + 1 + pre2.length := by
                simp [List.length_cons]; omega
              rw [hidx]; exact hpost
          · by_cases hq : c = '"'
            · subst hq
              match hs : splitAtQuote rest with
              | none =>
                rw [lexFuel_quote_none _ _ hs] at h
                injection h with h1 h2
                injection h2 with h2
                refine ⟨[], '"' :: rest, by simp, ?_, ?_⟩
                · rw [lexFrom_nil, ← h1]
                · rw [List.length_nil, Nat.add_zero, lexFrom_quote_none _ hs, h2]
              | some (val, rest2) =>
                obtain ⟨he, hnm⟩ := splitAtQuote_some_eq hs
                rw [lexFuel_quote_some _ _ hs] at h
                have h1 : Tok.str val :: (lexFuel fuel (i + val.length + 2) rest2).1
                    = ts := congrArg Prod.fst h
                have h2 : (lexFuel fuel (i + val.length + 2) rest2).2 = some e :=
                  congrArg Prod.snd h
                have hsub : lexFuel fuel (i + val.length + 2) rest2 =
                    ((lexFuel fuel (i + val.length + 2) rest2).1, some e) := by
                  rw [← h2]
                have hr2 : rest2.length ≤ fuel := by
                  have : rest2.length ≤ rest.length := by rw [he]; simp; omega
                  omega
                obtain ⟨pre2, post, hsplit, hpre, hpost⟩ :=
                  ih (i + val.length + 2) rest2 _ e hr2 hsub
                refine ⟨'"' :: (val ++ '"' :: pre2), post, ?_, ?_, ?_⟩
                · rw [he, hsplit]; simp
                · rw [lexFrom_quote_some i (splitAtQuote_append hnm), hpre, ← h1]
                  rfl
                · have hidx : i + ('"' :: (val ++ '"' :: pre2)).length =
                      i + val.length + 2 + pre2.length := by
                    simp [List.length_cons, List.length_append]; omega
                  rw [hidx]; exact hpost
            · by_cases hd : isDigitChar c = true
              · match hn : pyIntLit (scanIntSlice (c :: rest)) with
                | none =>
                  rw [lexFuel_digit_none _ _ hd hn] at h
                  injection h with h1 h2
                  injection h2 with h2
                  refine ⟨[], c :: rest, by simp, ?_, ?_⟩
                  · rw [lexFrom_nil, ← h1]
                  · rw [List.length_nil, Nat.add_zero, lexFrom_digit_none _ hd hn, h2]
                | some n =>
                  rw [lexFuel_digit_some _ _ hd hn] at h
                  have h1 : Tok.int (Int.ofNat n) ::
                      (lexFuel fuel (i + (scanIntSlice (c :: rest)).length)
                        (scanIntRest (c :: rest))).1 = ts := congrArg Prod.fst h
                  have h2 : (lexFuel fuel (i + (scanIntSlice (c :: rest)).length)
                      (scanIntRest (c :: rest))).2 = some e := congrArg Prod.snd h
                  have hsub : lexFuel fuel (i + (scanIntSlice (c :: rest)).length)
                      (scanIntRest (c :: rest)) =
                      ((lexFuel fuel (i + (scanIntSlice (c :: rest)).length)
                        (scanIntRest (c :: rest))).1, some e) := by rw [← h2]
                  have hr3 : (scanIntRest (c :: rest)).length ≤ fuel := by
                    have : (scanIntRest (c :: rest)).length ≤ rest.length := by
                      rw [scanIntRest, List.dropWhile_cons_of_pos
                        (by simp [digit_not_stop hd])]
                      exact (List.dropWhile_sublist _).length_le
                    omega
                  obtain ⟨pre2, post, hsplit, hpre, hpost⟩ :=
                    ih (i + (scanIntSlice (c :: rest)).length)
                      (scanIntRest (c :: rest)) _ e hr3 hsub
                  have hsl : scanIntSlice (c :: rest) =
                      c :: List.takeWhile (fun d => !intStop d) rest := by
                    rw [scanIntSlice,
                      List.takeWhile_cons_of_pos (by simp [digit_not_stop hd])]
                  have hall : ∀ x ∈ scanIntSlice (c :: rest),
                      (fun d => !intStop d) x = true := by
                    intro x hx
                    rw [scanIntSlice] at hx
                    have hx2 := List.mem_takeWhile_imp hx
                    exact hx2
                  have hhead : ∀ x r2, pre2 = x :: r2 →
                      (fun d => !intStop d) x = false := by
                    intro x r2 hx
                    have : scanIntRest (c :: rest) = x :: (r2 ++ post) := by
                      rw [hsplit, hx]; rfl
                    rw [scanIntRest] at this
                    exact dropWhile_head_false this
                  have scan := scan_append hall hhead
                  have hcons : scanIntSlice (c :: rest) ++ pre2 =
                      c :: (List.takeWhile (fun d => !intStop d) rest ++ pre2) := by
                    rw [hsl]; rfl
                  have hsl2 : scanIntSlice
                      (c :: (List.takeWhile (fun d => !intStop d) rest ++ pre2)) =
                      scanIntSlice (c :: rest) := by
                    rw [scanIntSlice, ← hcons]
                    exact scan.1
                  have hrest2 : scanIntRest
                      (c :: (List.takeWhile (fun d => !intStop d) rest ++ pre2)) =
                      pre2 := by
                    rw [scanIntRest, ← hcons]
                    exact scan.2
                  refine ⟨scanIntSlice (c :: rest) ++ pre2, post, ?_, ?_, ?_⟩
                  · rw [List.append_assoc, ← hsplit]
                    conv_lhs => rw [← List.takeWhile_append_dropWhile
                      (p := fun d => !intStop d) (l := c :: rest)]
                    rfl
                  · rw [hcons, lexFrom_digit_some i hd (by rw [hsl2]; exact hn),
                      hsl2, hrest2, hpre, ← h1]
                    rfl
                  · have hidx : i + (scanIntSlice (c :: rest) ++ pre2).length =
                        i + (scanIntSlice (c :: rest)).length + pre2.length := by
                      simp [List.length_append]; omega
                    rw [hidx]; exact hpost
              · by_cases hw : wsChar c = true
                · rw [lexFuel_ws _ _ _ hw] at h
                  obtain ⟨pre2, post, hsplit, hpre, hpost⟩ :=
                    ih (i+1) rest ts e hrest h
                  refine ⟨c :: pre2, post, by simp [hsplit], ?_, ?_⟩
                  · rw [lexFrom_ws _ _ hw]; exact hpre
                  · have hidx : i + (c :: pre2).length = i + 1 + pre2.length := by
                      simp [List.length_cons]; omega
                    rw [hidx]; exact hpost
                · have hp2 : pyPrintable c = true := by
                    cases hb : pyPrintable c
                    · exact absurd hb hp
                    · rfl
                  have hw2 : wsChar c = false := by
                    cases hb : wsChar c
                    · rfl
                    · exact absurd hb hw
                  have hd2 : isDigitChar c = false := by
                    cases hb : isDigitChar c
                    · rfl
                    · exact absurd hb hd
                  rw [lexFuel_sym _ _ _ hp2 hw2 hd2 hlp hrp hq] at h
                  have h1 : Tok.sym (scanSymbolName (c :: rest)) ::
                      (lexFuel fuel (i + (scanSymbolName (c :: rest)).length)
                        (scanSymbolRest (c :: rest))).1 = ts := congrArg Prod.fst h
                  have h2 : (lexFuel fuel (i + (scanSymbolName (c :: rest)).length)
                      (scanSymbolRest (c :: rest))).2 = some e := congrArg Prod.snd h
                  have hsub : lexFuel fuel (i + (scanSymbolName (c :: rest)).length)
                      (scanSymbolRest (c :: rest)) =
                      ((lexFuel fuel (i + (scanSymbolName (c :: rest)).length)
                        (scanSymbolRest (c :: rest))).1, some e) := by rw [← h2]
                  have hr3 : (scanSymbolRest (c :: rest)).length ≤ fuel := by
                    have : (scanSymbolRest (c :: rest)).length ≤ rest.length := by
                      rw [scanSymbolRest, List.dropWhile_cons_of_pos (by simp [hw2])]
                      exact (List.dropWhile_sublist _).length_le
                    omega
                  obtain ⟨pre2, post, hsplit, hpre, hpost⟩ :=
                    ih (i + (scanSymbolName (c :: rest)).length)
                      (scanSymbolRest (c :: rest)) _ e hr3 hsub
                  have hsl : scanSymbolName (c :: rest) =
                      c :: List.takeWhile (fun d => !wsChar d) rest := by
                    rw [scanSymbolName, List.takeWhile_cons_of_pos (by simp [hw2])]
                  have hall : ∀ x ∈ scanSymbolName (c :: rest),
                      (fun d => !wsChar d) x = true := by
                    intro x hx
                    rw [scanSymbolName] at hx
                    have hx2 := List.mem_takeWhile_imp hx
                    exact hx2
                  have hhead : ∀ x r2, pre2 = x :: r2 →
                      (fun d => !wsChar d) x = false := by
                    intro x r2 hx
                    have : scanSymbolRest (c :: rest) = x :: (r2 ++ post) := by
                      rw [hsplit, hx]; rfl
                    rw [scanSymbolRest] at this
                    exact dropWhile_head_false this
                  have scan := scan_append hall hhead
                  have hcons : scanSymbolName (c :: rest) ++ pre2 =
                      c :: (List.takeWhile (fun d => !wsChar d) rest ++ pre2) := by
                    rw [hsl]; rfl
                  have hsl2 : scanSymbolName
                      (c :: (List.takeWhile (fun d => !wsChar d) rest ++ pre2)) =
                      scanSymbolName (c :: rest) := by
                    rw [scanSymbolName, ← hcons]
                    exact scan.1
                  have hrest2 : scanSymbolRest
                      (c :: (List.takeWhile (fun d => !wsChar d) rest ++ pre2)) =
                      pre2 := by
                    rw [scanSymbolRest, ← hcons]
                    exact scan.2
                  refine ⟨scanSymbolName (c :: rest) ++ pre2, post, ?_, ?_, ?_⟩
                  · rw [List.append_assoc, ← hsplit]
                    conv_lhs => rw [← List.takeWhile_append_dropWhile
                      (p := fun d => !wsChar d) (l := c :: rest)]
                    rfl
                  · rw [hcons, lexFrom_sym i _ hp2 hw2 hd2 hlp hrp hq,
                      hsl2, hrest2, hpre, ← h1]
                    rfl
                  · have hidx : i + (scanSymbolName (c :: rest) ++ pre2).length =
                        i + (scanSymbolName (c :: rest)).length + pre2.length := by
                      simp [List.length_append]; omega
                    rw [hidx]; exact hpost

/-! Claim theorems. -/

/-- C1: the claim that rendering the lexer's output reproduces every
canonically spaced input fails on the code.  The string `0 1` is in
canonical spacing — it is exactly what the spec's §4.2 adjacency table
renders for its own token sequence `[0, 1]` — and the lexer recovers
that token sequence, yet `PRINT` renders it back as `01`: the printer's
`if not previous` guard treats the falsy previous token `0` as absent
and omits the space required by the (Other, Other) table entry. -/
theorem C1_canonical_input_not_reproduced :
    renderSpec [Tok.int 0, Tok.int 1] = "0 1".data ∧
    lex ("0 1".data) = ([Tok.int 0, Tok.int 1], none) ∧
    PRINT [Tok.int 0, Tok.int 1] = "01".data ∧
    "01".data ≠ "0 1".data := by
  refine ⟨by decide, by decide, by decide, by decide⟩

/-- C2 counterexample: the lexer emits a Symbol token whose name
contains `)` — symbol-scan does not stop at parentheses, contrary to
the claim (the source's own doctest shows `Symbol(name='->>)')`). -/
theorem C2_paren_in_symbol_name :
    lex ("a)".data) = ([Tok.sym ['a', ')']], none) ∧ ')' ∈ ['a', ')'] := by
  exact ⟨by decide, by decide⟩

/-- C2 amended: every Symbol token emitted by the lexer has a non-empty
name containing no whitespace and no comma; symbol-scan stops only at
`_WHITESPACE_CHARS` members (whitespace or comma) or end of input, not
at `(` or `)`, so names may contain parentheses. -/
theorem C2_symbol_names_nonempty_no_ws_no_comma :
    ∀ i l name, Tok.sym name ∈ (lexFrom i l).1 →
      name ≠ [] ∧ ∀ c ∈ name, wsChar c = false := by
  intro i l name h
  exact sym_name_invariant l.length i l name h

/-- Witness for C2 amended at the symbol token of `a)`. -/
theorem C2_symbol_names_witness :
    ['a', ')'] ≠ ([] : List Char) ∧ ∀ c ∈ ['a', ')'], wsChar c = false :=
  C2_symbol_names_nonempty_no_ws_no_comma 0 ("a)".data) ['a', ')'] (by decide)

/-- C3 counterexample: the vertical tab U+000B is a control character
outside the claim's whitespace set {space, tab, newline}, yet the lexer
skips it silently instead of raising: it lies in Python's
`string.printable` and `string.whitespace`. -/
theorem C3_vertical_tab_skipped :
    lex [Char.ofNat 11] = ([], none) := by decide

/-- C3 amended: a character outside Python's `string.printable` (the
printable ASCII characters plus tab, newline, carriage return, vertical
tab and form feed) makes the lexer fail at once with the invalid
character error carrying the current index; carriage return, vertical
tab and form feed are instead treated as whitespace and skipped. -/
theorem C3_invalid_char_errors :
    (∀ i c rest, pyPrintable c = false →
      lexFrom i (c :: rest) = ([], some (LexError.invalidChar i))) ∧
    (∀ i rest, lexFrom i (Char.ofNat 13 :: rest) = lexFrom (i+1) rest) ∧
    (∀ i rest, lexFrom i (Char.ofNat 11 :: rest) = lexFrom (i+1) rest) ∧
    (∀ i rest, lexFrom i (Char.ofNat 12 :: rest) = lexFrom (i+1) rest) := by
  refine ⟨fun i c rest h => lexFrom_bad i rest h,
    fun i rest => lexFrom_ws i rest (by decide),
    fun i rest => lexFrom_ws i rest (by decide),
    fun i rest => lexFrom_ws i rest (by decide)⟩

/-- Witness for C3 amended at the non-ASCII code point U+0080. -/
theorem C3_invalid_char_witness :
    pyPrintable (Char.ofNat 128) = false ∧
    lexFrom 0 [Char.ofNat 128] = ([], some (LexError.invalidChar 0)) :=
  ⟨by decide, C3_invalid_char_errors.1 0 (Char.ofNat 128) [] (by decide)⟩

/-- C4: an opening quote with no closing quote before end of input makes
the lexer fail with the unbalanced-quotes error carrying the opening
quote's index; in particular `foo "bar` fails with index 4 after
yielding the symbol `foo`. -/
theorem C4_unbalanced_quote :
    (∀ i rest, '"' ∉ rest →
      lexFrom i ('"' :: rest) = ([], some (LexError.unbalancedQuote i))) ∧
    lex ("foo \"bar".data) =
      ([Tok.sym ['f', 'o', 'o']], some (LexError.unbalancedQuote 4)) := by
  constructor
  · intro i rest h
    exact lexFrom_quote_none i (splitAtQuote_of_not_mem h)
  · decide

/-- Witness for C4 at the opening quote of `foo "bar` (index 4). -/
theorem C4_unbalanced_quote_witness :
    '"' ∉ ['b', 'a', 'r'] ∧
    lexFrom 4 ('"' :: ['b', 'a', 'r']) =
      ([], some (LexError.unbalancedQuote 4)) :=
  ⟨by decide, C4_unbalanced_quote.1 4 ['b', 'a', 'r'] (by decide)⟩

/-- C5 counterexample: the digit `1` is immediately followed by `_`,
a character that is not a digit, whitespace, comma or parenthesis, yet
the lexer does not fail: CPython's `int()` accepts underscores between
digits, so `1_0` lexes to the single token 10. -/
theorem C5_underscore_accepted :
    lex ("1_0".data) = ([Tok.int 10], none) := by decide

/-- C5 amended, for printable-ASCII slices (on them the `int()` model is
exact, see `pyIntLit`): when the slice scanned from a leading digit up
to the next whitespace, comma, parenthesis or end of input is not a run
of digits with single underscores between digits, the lexer fails with
the `ValueError` carrying that slice (not an index); when the slice is
such a run — a condition that itself forces the slice to be ASCII — its
underscore-stripped value is accepted as the integer token.  In
particular `0invalid` fails while `1_0` is accepted. -/
theorem C5_malformed_number_errors :
    (∀ i c rest, isDigitChar c = true →
      (∀ x ∈ scanIntSlice (c :: rest), pyPrintable x = true) →
      pyIntLit (scanIntSlice (c :: rest)) = none →
      lexFrom i (c :: rest) =
        ([], some (LexError.malformedInt (scanIntSlice (c :: rest))))) ∧
    (∀ i c rest n, isDigitChar c = true →
      pyIntLit (scanIntSlice (c :: rest)) = some n →
      lexFrom i (c :: rest) =
        consTok (Tok.int (Int.ofNat n))
          (lexFrom (i + (scanIntSlice (c :: rest)).length)
            (scanIntRest (c :: rest)))) ∧
    lex ("0invalid".data) =
      ([], some (LexError.malformedInt ("0invalid".data))) := by
  refine ⟨?_, ?_, by decide⟩
  · intro i c rest hd _ hn
    exact lexFrom_digit_none i hd hn
  · intro i c rest n hd hn
    exact lexFrom_digit_some i hd hn

/-- Witness for C5 amended: the error direction at the slice `0invalid`
and the acceptance direction at the slice `1_0`. -/
theorem C5_malformed_number_witness :
    (isDigitChar '0' = true ∧
     (∀ x ∈ scanIntSlice ('0' :: "invalid".data), pyPrintable x = true) ∧
     pyIntLit (scanIntSlice ('0' :: "invalid".data)) = none ∧
     lexFrom 0 ('0' :: "invalid".data) =
       ([], some (LexError.malformedInt (scanIntSlice ('0' :: "invalid".data))))) ∧
    (pyIntLit (scanIntSlice ('1' :: "_0".data)) = some 10 ∧
     lexFrom 0 ('1' :: "_0".data) =
       consTok (Tok.int (Int.ofNat 10))
         (lexFrom (0 + (scanIntSlice ('1' :: "_0".data)).length)
           (scanIntRest ('1' :: "_0".data)))) :=
  ⟨⟨by decide, by decide, by decide,
    C5_malformed_number_errors.1 0 '0' ("invalid".data) (by decide) (by decide)
      (by decide)⟩,
   ⟨by decide,
    C5_malformed_number_errors.2.1 0 '1' ("_0".data) 10 (by decide) (by decide)⟩⟩

/-- C6: the spacing decision is not a function of the kind pair alone.
The pairs (IntegerLiteral 2, IntegerLiteral 1) and (IntegerLiteral 0,
IntegerLiteral 1) both have kinds (Other, Other), whose table entry says
to insert a space, yet the code answers differently on them: its
`if not previous` guard short-circuits to no-space whenever the
previous token is the falsy value 0 (or the empty string). -/
theorem C6_space_rule_not_kind_determined :
    kindOf (Tok.int 0) = Kind.other ∧ kindOf (Tok.int 1) = Kind.other ∧
    kindOf (Tok.int 2) = Kind.other ∧
    spaceRule Kind.other Kind.other = true ∧
    preceedWithSpace (some (Tok.int 2)) (Tok.int 1) = true ∧
    preceedWithSpace (some (Tok.int 0)) (Tok.int 1) = false := by decide

/-- C7: rendering is not idempotent through the lexer on the
malformed-literal-free sequence `[0, 1]`: it renders as `01` (the space
is lost after the falsy token 0), which rescans to the single token 1
and re-renders as `1`. -/
theorem C7_render_not_idempotent :
    PRINT [Tok.int 0, Tok.int 1] = "01".data ∧
    lex (PRINT [Tok.int 0, Tok.int 1]) = ([Tok.int 1], none) ∧
    PRINT (lex (PRINT [Tok.int 0, Tok.int 1])).1 = "1".data ∧
    PRINT (lex (PRINT [Tok.int 0, Tok.int 1])).1 ≠ PRINT [Tok.int 0, Tok.int 1] := by
  refine ⟨by decide, by decide, by decide, by decide⟩

/-- C8: the lexer never enforces parenthesis balance: `(` alone lexes to
exactly one LeftParen token with no error, and a `(` or `)` at the scan
position always just emits its delimiter token and continues — whatever
the rest of the source, these two branches introduce no error of their
own. -/
theorem C8_no_delimiter_balance_check :
    lex ("(".data) = ([Tok.lp], none) ∧
    (∀ i rest, lexFrom i ('(' :: rest) = consTok Tok.lp (lexFrom (i+1) rest)) ∧
    (∀ i rest, lexFrom i (')' :: rest) = consTok Tok.rp (lexFrom (i+1) rest)) :=
  ⟨by decide, lexFrom_lp, lexFrom_rp⟩

/-- C9: when the lexer fails, the source splits into a clean head whose
complete scan yields, in order, exactly the tokens produced before the
error, and a tail whose very first classified character produces the
error with no token yielded in its place: no partially formed token is
ever emitted. -/
theorem C9_tokens_before_error_complete :
    ∀ i l ts e, lexFrom i l = (ts, some e) →
      ∃ pre post, l = pre ++ post ∧ lexFrom i pre = (ts, none) ∧
        lexFrom (i + pre.length) post = ([], some e) := by
  intro i l ts e h
  exact error_split l.length i l ts e (Nat.le_refl _) h

/-- Witness for C9 on `ab "x`, which yields the symbol `ab` and then
fails at the unbalanced quote at index 3. -/
theorem C9_tokens_before_error_witness :
    ∃ pre post, "ab \"x".data = pre ++ post ∧
      lexFrom 0 pre = ([Tok.sym ['a', 'b']], none) ∧
      lexFrom (0 + pre.length) post =
        ([], some (LexError.unbalancedQuote 3)) :=
  C9_tokens_before_error_complete 0 ("ab \"x".data) [Tok.sym ['a', 'b']]
    (LexError.unbalancedQuote 3) (by decide)

/-- C10: `PRINT` renders a string token as its value between two quote
characters with no escaping or validation, so a value containing `"`
(constructible only outside the lexer) renders to output that no longer
rescans to the same token: `a"b` renders as `"a"b"`, which lexes to the
string `a` followed by the symbol `b"`. -/
theorem C10_string_rendering_unescaped :
    (∀ v, tokText (Tok.str v) = '"' :: (v ++ ['"'])) ∧
    PRINT [Tok.str ['a', '"', 'b']] = "\"a\"b\"".data ∧
    lex (PRINT [Tok.str ['a', '"', 'b']]) =
      ([Tok.str ['a'], Tok.sym ['b', '"']], none) ∧
    (lex (PRINT [Tok.str ['a', '"', 'b']])).1 ≠ [Tok.str ['a', '"', 'b']] :=
  ⟨fun v => rfl, by decide, by decide, by decide⟩

end JeffsMal
